import Mathlib

/-!
Verification model of `src/app/src/lib/stores/pull-request-store.ts`.

The store keeps a cache of pull-request rows and append-only status rows and
exposes `updatePullRequests` (refresh) and `getPullRequests` (currentView).
External collaborators that are not part of the store source (the Dexie-backed
`PullRequestDatabase`, the `RepositoriesStore`, the remote `API`, `fatalError`)
are modelled at their interface boundary; each such definition says so in its
doc comment.  Asynchronous methods become explicit state passing; a rejected
promise becomes an error value.
-/

namespace PullRequestStore

/-- Owner record of a remote repository payload (`{ login }`). -/
structure APIOwner where
  login : String
deriving DecidableEq, Repr

/-- Remote repository descriptor as it appears in `pr.head.repo` / `pr.base.repo`. -/
structure IAPIRepository where
  owner : APIOwner
  name : String
deriving DecidableEq, Repr

/-- `head` / `base` of a remote pull-request payload. -/
structure IAPIRefState where
  ref : String
  sha : String
  repo : IAPIRepository
deriving DecidableEq, Repr

/-- The `user` field of a remote pull-request payload. -/
structure IAPIUser where
  login : String
deriving DecidableEq, Repr

/-- A remote pull-request record as returned by `api.fetchPullRequests`. -/
structure IAPIPullRequest where
  number : Nat
  title : String
  created_at : String
  user : IAPIUser
  head : IAPIRefState
  base : IAPIRefState
deriving DecidableEq, Repr

/-- A combined ref status payload as returned by `api.fetchCombinedRefStatus`. -/
structure IAPIRefStatus where
  state : String
  total_count : Nat
deriving DecidableEq, Repr

/-- Local repository model (`GitHubRepository`).  `dbID` is the storage-assigned
local identity; `none` models a repository that has not been inserted into the
database. -/
structure GitHubRepository where
  dbID : Option Nat
  endpoint : String
  owner : APIOwner
  name : String
deriving DecidableEq, Repr

/-- Modelled from the spec: `RepositoriesStore` (`./repositories-store`) is not under
`src/`.  Spec §6 gives it `findOrCreate(endpoint, remoteRepoDescriptor)` with
find-or-create semantics and `findById(localId)`; §9 describes the upsert as keyed by
(endpoint, owner, name).  The store is the list of repository records in insertion
order together with the next local identity to assign. -/
structure RepositoriesStore where
  repos : List GitHubRepository
  nextId : Nat
deriving DecidableEq, Repr

/-- Modelled from the spec: the lookup key used by find-or-create is
(endpoint, owner login, repository name). -/
def lookupRepo (rs : RepositoriesStore) (endpoint : String) (d : IAPIRepository) :
    Option GitHubRepository :=
  rs.repos.find? fun g =>
    g.endpoint == endpoint && g.owner.login == d.owner.login && g.name == d.name

/-- Modelled from the spec: `RepositoriesStore.findOrPutGitHubRepository` — return the
existing record for the key, or insert a fresh one with a newly assigned local
identity (find-or-create, §6/§9). -/
def findOrPutGitHubRepository (rs : RepositoriesStore) (endpoint : String)
    (d : IAPIRepository) : GitHubRepository × RepositoriesStore :=
  match lookupRepo rs endpoint d with
  | some g => (g, rs)
  | none =>
    let g : GitHubRepository :=
      { dbID := some rs.nextId, endpoint := endpoint, owner := d.owner, name := d.name }
    (g, { repos := rs.repos ++ [g], nextId := rs.nextId + 1 })

/-- Modelled from the spec: `RepositoriesStore.findGitHubRepositoryByID` — lookup by
local identity (`findById`, §6); absent when no record carries the id. -/
def findGitHubRepositoryByID (rs : RepositoriesStore) (id : Nat) :
    Option GitHubRepository :=
  rs.repos.find? fun g => g.dbID == some id

/-- Stored head/base reference of a pull-request row; `repoId` is a foreign key into
the repository-identity space. -/
structure IPullRequestRef where
  ref : String
  sha : String
  repoId : Nat
deriving DecidableEq, Repr

/-- The fields of a pull-request row as built by `writePullRequests` before insertion
(`insertablePRs`); the primary key is assigned by storage on `bulkAdd`. -/
structure IPullRequestData where
  number : Nat
  title : String
  createdAt : String
  head : IPullRequestRef
  base : IPullRequestRef
  author : String
deriving DecidableEq, Repr

/-- A stored pull-request row (`IPullRequest`) with its storage-assigned primary key. -/
structure IPullRequest where
  id : Nat
  number : Nat
  title : String
  createdAt : String
  head : IPullRequestRef
  base : IPullRequestRef
  author : String
deriving DecidableEq, Repr

/-- The storage-independent fields of a stored row (everything but the assigned id). -/
def eraseId (pr : IPullRequest) : IPullRequestData :=
  { number := pr.number, title := pr.title, createdAt := pr.createdAt,
    head := pr.head, base := pr.base, author := pr.author }

/-- A stored status row (`IPullRequestStatus`). -/
structure IPullRequestStatus where
  state : String
  totalCount : Nat
  pullRequestId : Nat
  sha : String
deriving DecidableEq, Repr

/-- Modelled from the spec: `PullRequestDatabase` (`../databases`) is not under `src/`.
Two tables (§4.2/§4.3): the pull-request table with an auto-increment primary key, and
the append-only status table kept in insertion order (its auto-increment primary key
follows insertion order, so list order encodes primary-key order).  Dexie's
auto-increment key generator is not reset by `Table.clear`, so `nextPrId` survives the
clear performed by a refresh. -/
structure PullRequestDatabase where
  pullRequests : List IPullRequest
  nextPrId : Nat
  pullRequestStatus : List IPullRequestStatus
deriving DecidableEq, Repr

/-- `Table.bulkAdd` on the pull-request table: append the rows, assigning consecutive
auto-increment primary keys starting at the generator's current value. -/
def assignIds : Nat → List IPullRequestData → List IPullRequest
  | _, [] => []
  | n, r :: rest =>
    { id := n, number := r.number, title := r.title, createdAt := r.createdAt,
      head := r.head, base := r.base, author := r.author } :: assignIds (n + 1) rest

/-- Modelled from the spec: the remote source (`../api`, §6) is not under `src/`.
`none` models a rejected fetch (network/auth/rate-limit failure, §4.1). -/
structure API where
  fetchPullRequests : String → String → Option (List IAPIPullRequest)
  fetchCombinedRefStatus : String → String → String → Option IAPIRefStatus

/-- Errors surfaced to the caller (§7).  `preconditionViolation` is what `fatalError`
raises — modelled from the spec, since `../fatal-error` is not under `src/` and §7
requires the violation to be fatal rather than silently swallowed.
`remoteFetchFailure` models a rejected remote fetch propagated by the store. -/
inductive StoreError where
  | preconditionViolation
  | remoteFetchFailure
deriving DecidableEq, Repr

/-- `PullRequestStatus` domain value. -/
structure PullRequestStatus where
  state : String
  totalCount : Nat
  sha : String
deriving DecidableEq, Repr

/-- `PullRequestRef` domain value.  The repository slot holds whatever
`findGitHubRepositoryByID` returned; the source's non-null assertion `!` performs no
runtime check, so the slot may hold `undefined`, modelled as `none`. -/
structure PullRequestRef where
  ref : String
  sha : String
  gitHubRepository : Option GitHubRepository
deriving DecidableEq, Repr

/-- `PullRequest` domain value; `created` carries the `createdAt` string the `Date`
is constructed from. -/
structure PullRequest where
  id : Nat
  created : String
  status : Option PullRequestStatus
  title : String
  number : Nat
  head : PullRequestRef
  base : PullRequestRef
  author : String
deriving DecidableEq, Repr

/-- The JavaScript falsy test `!repoId` on a nullable numeric id: true for `null` and
for `0`. -/
def falsyId : Option Nat → Bool
  | none => true
  | some 0 => true
  | some (_ + 1) => false

/-- `getPullRequestStatusById`: Dexie lookup on the `[sha+pullRequestId]` compound
index with `limit(1).first()`.  Among rows with an equal compound key the index is
ordered by the auto-increment primary key, so `first()` yields the earliest-appended
matching row; absent yields `null`. -/
def getPullRequestStatusById (db : PullRequestDatabase) (sha : String)
    (pullRequestId : Nat) : Option PullRequestStatus :=
  match db.pullRequestStatus.find? fun r =>
      r.sha == sha && r.pullRequestId == pullRequestId with
  | none => none
  | some result =>
    some { state := result.state, totalCount := result.totalCount, sha := result.sha }

/-- The ordering used by `where('base.repoId').equals(id).reverse().sortBy('number')`:
pull-request number descending. -/
def numberDesc (a b : IPullRequest) : Prop := b.number ≤ a.number

instance : DecidableRel numberDesc := fun a b => Nat.decLe b.number a.number

instance : IsTotal IPullRequest numberDesc := ⟨fun a b => Nat.le_total b.number a.number⟩

instance : IsTrans IPullRequest numberDesc :=
  ⟨fun _ _ _ h1 h2 => Nat.le_trans h2 h1⟩

/-- The Dexie query in `getPullRequests`: the rows of the repository's scope
(`base.repoId` equals the repository's local id), sorted by number descending. -/
def listByRepository (db : PullRequestDatabase) (gitHubRepositoryID : Nat) :
    List IPullRequest :=
  List.insertionSort numberDesc
    (db.pullRequests.filter fun pr => pr.base.repoId == gitHubRepositoryID)

/-- The body of the build loop in `getPullRequests`: resolve head and base (the
non-null assertions keep whatever the lookups returned), correlate the status row,
and construct the immutable `PullRequest`. -/
def buildPullRequest (db : PullRequestDatabase) (rs : RepositoriesStore)
    (pr : IPullRequest) : PullRequest :=
  let head := findGitHubRepositoryByID rs pr.head.repoId
  let base := findGitHubRepositoryByID rs pr.base.repoId
  let prStatus := getPullRequestStatusById db pr.head.sha pr.id
  { id := pr.id, created := pr.createdAt, status := prStatus, title := pr.title,
    number := pr.number,
    head := { ref := pr.head.ref, sha := pr.head.sha, gitHubRepository := head },
    base := { ref := pr.base.ref, sha := pr.base.sha, gitHubRepository := base },
    author := pr.author }

/-- `PullRequestStore.getPullRequests` — the read-only `currentView`.  A repository
whose `dbID` is falsy hits `fatalError` (modelled as `preconditionViolation`);
otherwise the scoped, ordered rows are built into domain values. -/
def getPullRequests (db : PullRequestDatabase) (rs : RepositoriesStore)
    (repository : GitHubRepository) : Except StoreError (List PullRequest) :=
  let gitHubRepositoryID := repository.dbID
  if falsyId gitHubRepositoryID then
    .error .preconditionViolation
  else
    .ok ((listByRepository db (gitHubRepositoryID.getD 0)).map (buildPullRequest db rs))

/-- The per-item normalization loop of `writePullRequests`: resolve head and base
repositories (find-or-create, threading the repositories store) and build the
insertable rows.  The source's `dbID!` non-null assertions become `Option.getD 0`;
`findOrPutGitHubRepository` always assigns an id, so the default is never used. -/
def insertableLoop (endpoint : String) (rs : RepositoriesStore) :
    List IAPIPullRequest → List IPullRequestData × RepositoriesStore
  | [] => ([], rs)
  | pr :: rest =>
    let hr := findOrPutGitHubRepository rs endpoint pr.head.repo
    let br := findOrPutGitHubRepository hr.2 endpoint pr.base.repo
    let tail := insertableLoop endpoint br.2 rest
    ({ number := pr.number, title := pr.title, createdAt := pr.created_at,
       head := { ref := pr.head.ref, sha := pr.head.sha, repoId := hr.1.dbID.getD 0 },
       base := { ref := pr.base.ref, sha := pr.base.sha, repoId := br.1.dbID.getD 0 },
       author := pr.user.login } :: tail.1, tail.2)

/-- `PullRequestStore.writePullRequests`: precondition check, normalization, then the
transaction `table.clear(); table.bulkAdd(insertablePRs)`.  `Table.clear` empties the
whole pull-request table — it is not scoped to the repository being refreshed — and
does not reset the auto-increment key generator. -/
def writePullRequests (pullRequests : List IAPIPullRequest)
    (repository : GitHubRepository) (db : PullRequestDatabase)
    (rs : RepositoriesStore) :
    Except StoreError (PullRequestDatabase × RepositoriesStore) :=
  if falsyId repository.dbID then
    .error .preconditionViolation
  else
    let ins := insertableLoop repository.endpoint rs pullRequests
    .ok ({ pullRequests := assignIds db.nextPrId ins.1,
           nextPrId := db.nextPrId + ins.1.length,
           pullRequestStatus := db.pullRequestStatus }, ins.2)

/-- The status-fetch loop of `updatePullRequests`: one `fetchCombinedRefStatus` per
pull request of the re-read view, buffering rows in order; a rejected fetch aborts
the whole loop (and with it the refresh) with nothing buffered rows written. -/
def fetchStatusLoop (api : API) (ownerLogin name : String) :
    List PullRequest → Option (List IPullRequestStatus)
  | [] => some []
  | pr :: rest =>
    match api.fetchCombinedRefStatus ownerLogin name pr.head.sha with
    | none => none
    | some status =>
      match fetchStatusLoop api ownerLogin name rest with
      | none => none
      | some tail =>
        some ({ state := status.state, totalCount := status.total_count,
                pullRequestId := pr.id, sha := pr.head.sha } :: tail)

/-- `PullRequestStore.writePullRequestStatus`: a single `bulkAdd` appending the
buffered status rows to the append-only status table. -/
def writePullRequestStatus (statuses : List IPullRequestStatus)
    (db : PullRequestDatabase) : PullRequestDatabase :=
  { db with pullRequestStatus := db.pullRequestStatus ++ statuses }

/-- `PullRequestStore.updatePullRequests` — `refresh`: fetch the open pull requests,
replace the cached rows, re-read, fetch one combined status per item, append the
batch, and re-read again.  The result carries the state the call leaves behind —
also when it fails after step 2 committed — together with the returned sequence or
the propagated error. -/
def updatePullRequests (api : API) (repository : GitHubRepository)
    (db : PullRequestDatabase) (rs : RepositoriesStore) :
    PullRequestDatabase × RepositoriesStore × Except StoreError (List PullRequest) :=
  match api.fetchPullRequests repository.owner.login repository.name with
  | none => (db, rs, .error .remoteFetchFailure)
  | some prsFrmoAPI =>
    match writePullRequests prsFrmoAPI repository db rs with
    | .error e => (db, rs, .error e)
    | .ok dbrs =>
      match getPullRequests dbrs.1 dbrs.2 repository with
      | .error e => (dbrs.1, dbrs.2, .error e)
      | .ok prs =>
        match fetchStatusLoop api repository.owner.login repository.name prs with
        | none => (dbrs.1, dbrs.2, .error .remoteFetchFailure)
        | some pullRequestsStatuses =>
          let db2 := writePullRequestStatus pullRequestsStatuses dbrs.1
          match getPullRequests db2 dbrs.2 repository with
          | .error e => (db2, dbrs.2, .error e)
          | .ok prs2 => (db2, dbrs.2, .ok prs2)

end PullRequestStore

namespace PullRequestStore

/-! ### Basic facts about the storage primitives -/

theorem find?_eq_filter_head? {α : Type} (p : α → Bool) (l : List α) :
    l.find? p = (l.filter p).head? := by
  induction l with
  | nil => rfl
  | cons a l ih =>
    by_cases h : p a
    · rw [List.find?_cons_of_pos _ h, List.filter_cons_of_pos h, List.head?_cons]
    · rw [List.find?_cons_of_neg _ h, List.filter_cons_of_neg h, ih]

theorem assignIds_map_eraseId :
    ∀ (n : Nat) (rows : List IPullRequestData), (assignIds n rows).map eraseId = rows
  | _, [] => rfl
  | n, r :: rest => by
    cases r
    simp [assignIds, eraseId, assignIds_map_eraseId (n + 1) rest]

theorem assignIds_id_lb :
    ∀ (n : Nat) (rows : List IPullRequestData) (r : IPullRequest),
      r ∈ assignIds n rows → n ≤ r.id
  | _, [], _, h => by cases h
  | n, d :: rest, r, h => by
    rcases List.mem_cons.mp h with h | h
    · subst h; exact Nat.le_refl n
    · have := assignIds_id_lb (n + 1) rest r h
      omega

theorem assignIds_ids_nodup :
    ∀ (n : Nat) (rows : List IPullRequestData),
      ((assignIds n rows).map fun r => r.id).Nodup
  | _, [] => by simp [assignIds]
  | n, d :: rest => by
    simp only [assignIds, List.map_cons, List.nodup_cons]
    refine ⟨fun hmem => ?_, assignIds_ids_nodup (n + 1) rest⟩
    obtain ⟨r, hr, hid⟩ := List.mem_map.mp hmem
    have := assignIds_id_lb (n + 1) rest r hr
    omega

/-! ### Reduction lemmas for the store operations on a repository with an assigned,
non-falsy local identity -/

theorem getPullRequests_eq (db : PullRequestDatabase) (rs : RepositoriesStore)
    {repository : GitHubRepository} {m : Nat} (hk : repository.dbID = some (m + 1)) :
    getPullRequests db rs repository =
      .ok ((listByRepository db (m + 1)).map (buildPullRequest db rs)) := by
  simp [getPullRequests, hk, falsyId]

theorem getPullRequests_noId (db : PullRequestDatabase) (rs : RepositoriesStore)
    {repository : GitHubRepository} (hk : repository.dbID = none) :
    getPullRequests db rs repository = .error .preconditionViolation := by
  simp [getPullRequests, hk, falsyId]

/-- The table state committed by step 2 of a refresh: the whole pull-request table
replaced by the normalized rows, ids assigned from the surviving generator. -/
def replacedTable (db : PullRequestDatabase) (rows : List IPullRequestData) :
    PullRequestDatabase :=
  { pullRequests := assignIds db.nextPrId rows,
    nextPrId := db.nextPrId + rows.length,
    pullRequestStatus := db.pullRequestStatus }

theorem writePullRequests_eq (l : List IAPIPullRequest) {repository : GitHubRepository}
    {m : Nat} (hk : repository.dbID = some (m + 1)) (db : PullRequestDatabase)
    (rs : RepositoriesStore) :
    writePullRequests l repository db rs =
      .ok (replacedTable db (insertableLoop repository.endpoint rs l).1,
        (insertableLoop repository.endpoint rs l).2) := by
  simp [writePullRequests, hk, falsyId, replacedTable]

theorem updatePullRequests_fetchFail {api : API} {repository : GitHubRepository}
    (h : api.fetchPullRequests repository.owner.login repository.name = none)
    (db : PullRequestDatabase) (rs : RepositoriesStore) :
    updatePullRequests api repository db rs = (db, rs, .error .remoteFetchFailure) := by
  simp [updatePullRequests, h]

theorem updatePullRequests_statusFail {api : API} {repository : GitHubRepository}
    {l : List IAPIPullRequest} {m : Nat}
    (h1 : api.fetchPullRequests repository.owner.login repository.name = some l)
    (hk : repository.dbID = some (m + 1)) (db : PullRequestDatabase)
    (rs : RepositoriesStore)
    (hsf : fetchStatusLoop api repository.owner.login repository.name
        ((listByRepository (replacedTable db (insertableLoop repository.endpoint rs l).1)
            (m + 1)).map
          (buildPullRequest (replacedTable db (insertableLoop repository.endpoint rs l).1)
            (insertableLoop repository.endpoint rs l).2)) = none) :
    updatePullRequests api repository db rs =
      (replacedTable db (insertableLoop repository.endpoint rs l).1,
        (insertableLoop repository.endpoint rs l).2, .error .remoteFetchFailure) := by
  simp only [updatePullRequests, h1, writePullRequests_eq l hk db rs,
    getPullRequests_eq _ _ hk, hsf]

theorem updatePullRequests_statusOk {api : API} {repository : GitHubRepository}
    {l : List IAPIPullRequest} {m : Nat} {sts : List IPullRequestStatus}
    (h1 : api.fetchPullRequests repository.owner.login repository.name = some l)
    (hk : repository.dbID = some (m + 1)) (db : PullRequestDatabase)
    (rs : RepositoriesStore)
    (hsf : fetchStatusLoop api repository.owner.login repository.name
        ((listByRepository (replacedTable db (insertableLoop repository.endpoint rs l).1)
            (m + 1)).map
          (buildPullRequest (replacedTable db (insertableLoop repository.endpoint rs l).1)
            (insertableLoop repository.endpoint rs l).2)) = some sts) :
    updatePullRequests api repository db rs =
      (writePullRequestStatus sts
          (replacedTable db (insertableLoop repository.endpoint rs l).1),
        (insertableLoop repository.endpoint rs l).2,
        .ok ((listByRepository
            (writePullRequestStatus sts
              (replacedTable db (insertableLoop repository.endpoint rs l).1)) (m + 1)).map
          (buildPullRequest
            (writePullRequestStatus sts
              (replacedTable db (insertableLoop repository.endpoint rs l).1))
            (insertableLoop repository.endpoint rs l).2))) := by
  simp only [updatePullRequests, h1, writePullRequests_eq l hk db rs,
    getPullRequests_eq _ _ hk, hsf]

end PullRequestStore

namespace PullRequestStore

/-! ### Concrete instances used to instantiate the claims -/

/-- Remote descriptor of the target repository. -/
def descA : IAPIRepository := ⟨⟨"alice"⟩, "alpha"⟩

/-- Remote descriptor of a fork serving as a head repository. -/
def descFork : IAPIRepository := ⟨⟨"bob"⟩, "alpha"⟩

/-- Target repository, inserted with local identity 1. -/
def repoA : GitHubRepository := ⟨some 1, "e", ⟨"alice"⟩, "alpha"⟩

/-- A second repository, inserted with local identity 2. -/
def repoB : GitHubRepository := ⟨some 2, "e", ⟨"bob"⟩, "beta"⟩

/-- A repository that has not been inserted into the database. -/
def repoNone : GitHubRepository := ⟨none, "e", ⟨"alice"⟩, "alpha"⟩

/-- Repositories store holding only `repoA`. -/
def rsA : RepositoriesStore := ⟨[repoA], 2⟩

/-- Repositories store holding `repoA` and `repoB`. -/
def rsAB : RepositoriesStore := ⟨[repoA, repoB], 3⟩

/-- An empty database. -/
def db0 : PullRequestDatabase := ⟨[], 0, []⟩

/-- A cached pull-request row belonging to `repoB`. -/
def rowB : IPullRequest :=
  ⟨1, 4, "b pr", "2020-01-01", ⟨"h", "bsha", 2⟩, ⟨"master", "bbase", 2⟩, "bob"⟩

/-- A database caching one row of `repoB`. -/
def dbB : PullRequestDatabase := ⟨[rowB], 2, []⟩

/-- A remote pull request of `repoA` originating from the fork `descFork`. -/
def prA : IAPIPullRequest :=
  ⟨5, "t5", "2020-02-02", ⟨"u"⟩, ⟨"h", "sha5", descFork⟩, ⟨"m", "shab", descA⟩⟩

/-- Remote source with one open pull request for alice/alpha and a combined status
for its head sha. -/
def apiA : API :=
  ⟨fun o n => if o == "alice" && n == "alpha" then some [prA] else none,
   fun _ _ sha => if sha == "sha5" then some ⟨"success", 2⟩ else none⟩

/-- Remote source returning an empty open set for alice. -/
def apiEmpty : API :=
  ⟨fun o _ => if o == "alice" then some [] else none, fun _ _ _ => none⟩

/-- Remote source whose pull-request fetch always fails. -/
def apiNone : API := ⟨fun _ _ => none, fun _ _ _ => none⟩

/-- Remote source with one open pull request whose combined-status fetch fails. -/
def apiBadStatus : API :=
  ⟨fun o n => if o == "alice" && n == "alpha" then some [prA] else none,
   fun _ _ _ => none⟩

/-- Two cached rows of `repoA`, listed out of order. -/
def row3 : IPullRequest := ⟨1, 3, "t3", "c3", ⟨"h3", "s3", 1⟩, ⟨"m", "b3", 1⟩, "a"⟩

/-- Second cached row of `repoA`. -/
def row5 : IPullRequest := ⟨2, 5, "t5", "c5", ⟨"h5", "s5", 1⟩, ⟨"m", "b5", 1⟩, "a"⟩

/-- A database caching `row3` and `row5`. -/
def db4 : PullRequestDatabase := ⟨[row3, row5], 3, []⟩

/-- A row of `repoA` whose head `repoId` (99) resolves to no repository identity. -/
def rowDangling : IPullRequest :=
  ⟨5, 9, "t", "c", ⟨"h", "s", 99⟩, ⟨"m", "bs", 1⟩, "a"⟩

/-- A database caching the dangling-reference row. -/
def dbC5 : PullRequestDatabase := ⟨[rowDangling], 6, []⟩

/-- A status table holding two rows for the same (sha, pullRequestId) key, the
`success` one appended after the `pending` one. -/
def dbC2 : PullRequestDatabase :=
  ⟨[], 0, [⟨"pending", 1, 7, "abc"⟩, ⟨"success", 2, 7, "abc"⟩]⟩

/-! ### Claims C1, C2, C3, C5, C6 -/

/-- Claim C1: refuted on the code — `writePullRequests` clears the whole table, so
refreshing repository A (here: with an empty remote set) removes repository B's cached
row.  Before the refresh, B's view has one row; after refreshing A, the entire table
is empty and B's view is empty. -/
theorem refresh_unscoped_clear_removes_other_repository_rows :
    Except.map List.length (getPullRequests dbB rsAB repoB) = .ok 1 ∧
    (updatePullRequests apiEmpty repoA dbB rsAB).1.pullRequests = [] ∧
    getPullRequests (updatePullRequests apiEmpty repoA dbB rsAB).1
      (updatePullRequests apiEmpty repoA dbB rsAB).2.1 repoB = .ok [] :=
  ⟨rfl, rfl, rfl⟩

/-- Claim C2, counterexample: with two status rows recorded for the key
("abc", 7), the lookup returns the snapshot of the earliest-appended row
(`pending`), not of the most recently appended one (`success`). -/
theorem statusLookup_not_latest_cx :
    getPullRequestStatusById dbC2 "abc" 7 = some ⟨"pending", 1, "abc"⟩ ∧
    (dbC2.pullRequestStatus.filter fun r =>
      r.sha == "abc" && r.pullRequestId == 7).getLast? = some ⟨"success", 2, 7, "abc"⟩ ∧
    getPullRequestStatusById dbC2 "abc" 7 ≠ some ⟨"success", 2, "abc"⟩ := by
  decide

/-- Claim C2, amended: for every (sha, pullRequestId) key with at least one recorded
StatusRow, the lookup returns exactly one row — the snapshot of the EARLIEST-appended
matching row (the smallest primary key in the compound index), not the most recent. -/
theorem statusLookup_earliest_appended {db : PullRequestDatabase} {sha : String}
    {id : Nat} {r : IPullRequestStatus}
    (h : (db.pullRequestStatus.filter fun s =>
        s.sha == sha && s.pullRequestId == id).head? = some r) :
    getPullRequestStatusById db sha id =
      some { state := r.state, totalCount := r.totalCount, sha := r.sha } := by
  unfold getPullRequestStatusById
  rw [find?_eq_filter_head?, h]

/-- Witness for the amended C2 at the concrete two-row table. -/
theorem statusLookup_earliest_appended_witness :
    (dbC2.pullRequestStatus.filter fun s =>
      s.sha == "abc" && s.pullRequestId == 7).head? = some ⟨"pending", 1, 7, "abc"⟩ ∧
    getPullRequestStatusById dbC2 "abc" 7 = some ⟨"pending", 1, "abc"⟩ :=
  ⟨by decide, @statusLookup_earliest_appended dbC2 "abc" 7 ⟨"pending", 1, 7, "abc"⟩ (by decide)⟩

/-- Claim C3: if the remote fetch of open pull requests fails, the refresh aborts
with that error and both tables are unchanged, so `getPullRequests` afterwards
returns exactly what it returned before, for every repository. -/
theorem refresh_fetch_failure_preserves_view {api : API} {repository : GitHubRepository}
    (h : api.fetchPullRequests repository.owner.login repository.name = none)
    (db : PullRequestDatabase) (rs : RepositoriesStore) :
    (updatePullRequests api repository db rs).2.2 = .error .remoteFetchFailure ∧
    ∀ q : GitHubRepository,
      getPullRequests (updatePullRequests api repository db rs).1
        (updatePullRequests api repository db rs).2.1 q = getPullRequests db rs q := by
  rw [updatePullRequests_fetchFail h]
  exact ⟨rfl, fun _ => rfl⟩

/-- Witness for C3: a failing fetch against the two-repository cache leaves
repository B's view untouched. -/
theorem refresh_fetch_failure_preserves_view_witness :
    apiNone.fetchPullRequests repoA.owner.login repoA.name = none ∧
    getPullRequests (updatePullRequests apiNone repoA dbB rsAB).1
      (updatePullRequests apiNone repoA dbB rsAB).2.1 repoB =
      getPullRequests dbB rsAB repoB :=
  ⟨rfl, (refresh_fetch_failure_preserves_view rfl dbB rsAB).2 repoB⟩

/-- Claim C5: refuted on the code — when a stored row's head `repoId` resolves to no
repository identity, the view build neither skips the row nor fails: it returns the
row, with `none` in the head reference's repository slot (the non-null assertion
performs no runtime check). -/
theorem view_returns_unresolved_reference :
    Except.map List.length (getPullRequests dbC5 rsA repoA) = .ok 1 ∧
    Except.map (fun prs => prs.map fun p => p.head.gitHubRepository)
      (getPullRequests dbC5 rsA repoA) = .ok [none] :=
  ⟨rfl, rfl⟩

/-- Claim C6: refreshing a repository with no assigned local identity raises the
fatal precondition violation (modelled `fatalError`), as does `getPullRequests`;
neither silently returns an empty sequence. -/
theorem refresh_without_dbID_fails {api : API} {repository : GitHubRepository}
    {l : List IAPIPullRequest} (hid : repository.dbID = none)
    (h1 : api.fetchPullRequests repository.owner.login repository.name = some l)
    (db : PullRequestDatabase) (rs : RepositoriesStore) :
    (updatePullRequests api repository db rs).2.2 = .error .preconditionViolation ∧
    getPullRequests db rs repository = .error .preconditionViolation := by
  constructor
  · simp [updatePullRequests, h1, writePullRequests, hid, falsyId]
  · simp [getPullRequests, hid, falsyId]

/-- Witness for C6 at an uninserted repository and a succeeding remote fetch. -/
theorem refresh_without_dbID_fails_witness :
    repoNone.dbID = none ∧
    apiA.fetchPullRequests repoNone.owner.login repoNone.name = some [prA] ∧
    (updatePullRequests apiA repoNone db0 rsA).2.2 = .error .preconditionViolation :=
  ⟨rfl, by decide, (@refresh_without_dbID_fails apiA repoNone [prA] rfl (by decide) db0 rsA).1⟩

end PullRequestStore

namespace PullRequestStore

/-! ### Projection facts about the view builder and the scoped listing -/

theorem buildPullRequest_number (db : PullRequestDatabase) (rs : RepositoriesStore)
    (pr : IPullRequest) : (buildPullRequest db rs pr).number = pr.number := rfl

theorem buildPullRequest_id (db : PullRequestDatabase) (rs : RepositoriesStore)
    (pr : IPullRequest) : (buildPullRequest db rs pr).id = pr.id := rfl

theorem buildPullRequest_status (db : PullRequestDatabase) (rs : RepositoriesStore)
    (pr : IPullRequest) :
    (buildPullRequest db rs pr).status = getPullRequestStatusById db pr.head.sha pr.id :=
  rfl

theorem listByRepository_sorted (db : PullRequestDatabase) (k : Nat) :
    (listByRepository db k).Pairwise numberDesc :=
  List.sorted_insertionSort numberDesc _

theorem listByRepository_perm (db : PullRequestDatabase) (k : Nat) :
    (listByRepository db k).Perm (db.pullRequests.filter fun pr => pr.base.repoId == k) :=
  List.perm_insertionSort numberDesc _

/-! ### Claim C4 -/

/-- Claim C4: the sequence returned by `getPullRequests` is sorted by pull-request
number in strictly descending order (numbers are unique within the repository's
scope, as remote numbers are unique per repository). -/
theorem view_sorted_by_number_descending {db : PullRequestDatabase}
    {rs : RepositoriesStore} {repository : GitHubRepository} {k : Nat}
    {prs : List PullRequest} (hk : repository.dbID = some k) (hk0 : k ≠ 0)
    (hnd : ((db.pullRequests.filter fun r => r.base.repoId == k).map
      fun r => r.number).Nodup)
    (hp : getPullRequests db rs repository = .ok prs) :
    prs.Pairwise fun a b => b.number < a.number := by
  obtain ⟨m, hm⟩ := Nat.exists_eq_succ_of_ne_zero hk0
  subst hm
  rw [getPullRequests_eq db rs hk] at hp
  injection hp with hp
  subst hp
  rw [List.pairwise_map]
  simp only [buildPullRequest_number]
  have hne : (db.pullRequests.filter fun r => r.base.repoId == m + 1).Pairwise
      fun a b => a.number ≠ b.number := List.pairwise_map.mp hnd
  have hnes := (List.Perm.pairwise_iff (fun h => Ne.symm h)
    (listByRepository_perm db (m + 1))).mpr hne
  exact ((listByRepository_sorted db (m + 1)).and hnes).imp
    fun h => Nat.lt_of_le_of_ne h.1 (Ne.symm h.2)

/-- The view of `db4` for `repoA`, as returned by `getPullRequests`. -/
def vwPr5 : PullRequest :=
  ⟨2, "c5", none, "t5", 5, ⟨"h5", "s5", some repoA⟩, ⟨"m", "b5", some repoA⟩, "a"⟩

/-- Second element of that view. -/
def vwPr3 : PullRequest :=
  ⟨1, "c3", none, "t3", 3, ⟨"h3", "s3", some repoA⟩, ⟨"m", "b3", some repoA⟩, "a"⟩

/-- Witness for C4 at the two-row cache: the view comes back as [number 5, number 3],
strictly descending. -/
theorem view_sorted_by_number_descending_witness :
    getPullRequests db4 rsA repoA = .ok [vwPr5, vwPr3] ∧
    List.Pairwise (fun a b => b.number < a.number) [vwPr5, vwPr3] :=
  ⟨rfl, @view_sorted_by_number_descending db4 rsA repoA 1 [vwPr5, vwPr3]
    rfl (by decide) (by decide) rfl⟩

/-! ### Claim C9 -/

/-- Claim C9: a cached pull request whose (head sha, id) key has no recorded status
row is returned by `getPullRequests` with an absent status — the view build succeeds
and never fails on a missing status. -/
theorem view_missing_status_is_absent {db : PullRequestDatabase}
    {rs : RepositoriesStore} {repository : GitHubRepository} {k : Nat}
    {r : IPullRequest} (hk : repository.dbID = some k) (hk0 : k ≠ 0)
    (hr : r ∈ db.pullRequests) (hb : r.base.repoId = k)
    (hs : ∀ s ∈ db.pullRequestStatus, ¬(s.sha = r.head.sha ∧ s.pullRequestId = r.id)) :
    ∃ prs, getPullRequests db rs repository = .ok prs ∧
      ∃ p ∈ prs, p.id = r.id ∧ p.number = r.number ∧ p.status = none := by
  obtain ⟨m, hm⟩ := Nat.exists_eq_succ_of_ne_zero hk0
  subst hm
  refine ⟨_, getPullRequests_eq db rs hk, buildPullRequest db rs r, ?_, rfl, rfl, ?_⟩
  · apply List.mem_map_of_mem
    refine ((listByRepository_perm db (m + 1)).mem_iff).mpr ?_
    exact List.mem_filter.mpr ⟨hr, by simp [hb]⟩
  · rw [buildPullRequest_status]
    unfold getPullRequestStatusById
    have hnone : db.pullRequestStatus.find?
        (fun s => s.sha == r.head.sha && s.pullRequestId == r.id) = none := by
      rw [List.find?_eq_none]
      intro s hsmem
      have hns := hs s hsmem
      simp only [Bool.and_eq_true, beq_iff_eq]
      exact fun hcon => hns hcon
    rw [hnone]

/-- Witness for C9: `row3` has no status row in `db4`, and the view returns it with
an absent status. -/
theorem view_missing_status_is_absent_witness :
    row3 ∈ db4.pullRequests ∧
    (∃ prs, getPullRequests db4 rsA repoA = .ok prs ∧
      ∃ p ∈ prs, p.id = row3.id ∧ p.number = row3.number ∧ p.status = none) :=
  ⟨by decide, @view_missing_status_is_absent db4 rsA repoA 1 row3
    rfl (by decide) (by decide) rfl (by simp [db4])⟩

end PullRequestStore

namespace PullRequestStore

/-! ### Claim C10 -/

theorem fetchStatusLoop_none_of_mem {api : API} {o n : String} {prs : List PullRequest}
    (h : ∃ p ∈ prs, api.fetchCombinedRefStatus o n p.head.sha = none) :
    fetchStatusLoop api o n prs = none := by
  induction prs with
  | nil => obtain ⟨p, hp, _⟩ := h; cases hp
  | cons q rest ih =>
    obtain ⟨p, hp, hnone⟩ := h
    rcases List.mem_cons.mp hp with rfl | hp
    · simp [fetchStatusLoop, hnone]
    · cases hq : api.fetchCombinedRefStatus o n q.head.sha with
      | none => simp [fetchStatusLoop, hq]
      | some st => simp [fetchStatusLoop, hq, ih ⟨p, hp, hnone⟩]

/-- Claim C10: statuses are buffered and written in a single batch only after every
per-item fetch succeeded, so a failing combined-status fetch for any pull request of
the freshly written view aborts the refresh with no StatusRow appended at all, while
the final state is exactly the one step 2 committed (the replaced rows remain). -/
theorem refresh_statusFail_keeps_rows_appends_no_status {api : API}
    {repository : GitHubRepository} {l : List IAPIPullRequest} {k : Nat}
    {dbW : PullRequestDatabase} {rsW : RepositoriesStore} {prsW : List PullRequest}
    (h1 : api.fetchPullRequests repository.owner.login repository.name = some l)
    (hk : repository.dbID = some k) (hk0 : k ≠ 0)
    (db : PullRequestDatabase) (rs : RepositoriesStore)
    (hw : writePullRequests l repository db rs = .ok (dbW, rsW))
    (hg : getPullRequests dbW rsW repository = .ok prsW)
    (hfail : ∃ p ∈ prsW,
      api.fetchCombinedRefStatus repository.owner.login repository.name p.head.sha = none) :
    updatePullRequests api repository db rs = (dbW, rsW, .error .remoteFetchFailure) ∧
    dbW.pullRequestStatus = db.pullRequestStatus := by
  obtain ⟨m, hm⟩ := Nat.exists_eq_succ_of_ne_zero hk0
  subst hm
  rw [writePullRequests_eq l hk db rs] at hw
  injection hw with hw
  injection hw with hw1 hw2
  subst hw1
  subst hw2
  rw [getPullRequests_eq _ _ hk] at hg
  injection hg with hg
  subst hg
  exact ⟨updatePullRequests_statusFail h1 hk db rs (fetchStatusLoop_none_of_mem hfail),
    rfl⟩

/-- The database state committed by step 2 of the status-failing refresh below. -/
def dbW10 : PullRequestDatabase :=
  ⟨[⟨0, 5, "t5", "2020-02-02", ⟨"h", "sha5", 2⟩, ⟨"m", "shab", 1⟩, "u"⟩], 1, []⟩

/-- The repositories store after that refresh resolved the fork. -/
def rsW10 : RepositoriesStore := ⟨[repoA, ⟨some 2, "e", ⟨"bob"⟩, "alpha"⟩], 3⟩

/-- The view re-read in step 3 of that refresh. -/
def prsW10 : List PullRequest :=
  [⟨0, "2020-02-02", none, "t5", 5, ⟨"h", "sha5", some ⟨some 2, "e", ⟨"bob"⟩, "alpha"⟩⟩,
    ⟨"m", "shab", some repoA⟩, "u"⟩]

/-- Witness for C10: one open pull request, failing status fetch — the refresh ends in
the step-2 state with the replaced row present and no status row appended. -/
theorem refresh_statusFail_keeps_rows_appends_no_status_witness :
    updatePullRequests apiBadStatus repoA db0 rsA = (dbW10, rsW10, .error .remoteFetchFailure) ∧
    dbW10.pullRequestStatus = db0.pullRequestStatus :=
  @refresh_statusFail_keeps_rows_appends_no_status apiBadStatus repoA [prA] 1
    dbW10 rsW10 prsW10 rfl rfl (by decide) db0 rsA rfl rfl (by decide)

end PullRequestStore

namespace PullRequestStore

/-! ### Find-or-create: self lookup, monotonicity, idempotence -/

theorem findOrPut_of_lookup {rs : RepositoriesStore} {e : String} {d : IAPIRepository}
    {g : GitHubRepository} (h : lookupRepo rs e d = some g) :
    findOrPutGitHubRepository rs e d = (g, rs) := by
  simp [findOrPutGitHubRepository, h]

theorem lookupRepo_findOrPut_self (rs : RepositoriesStore) (e : String)
    (d : IAPIRepository) :
    lookupRepo (findOrPutGitHubRepository rs e d).2 e d =
      some (findOrPutGitHubRepository rs e d).1 := by
  cases h : lookupRepo rs e d with
  | some g => simp [findOrPutGitHubRepository, h]
  | none =>
    have hfind : rs.repos.find? (fun g2 =>
        g2.endpoint == e && g2.owner.login == d.owner.login && g2.name == d.name) =
        none := h
    simp only [findOrPutGitHubRepository, h]
    simp only [lookupRepo]
    rw [List.find?_append, hfind]
    rw [List.find?_cons_of_pos]
    · rfl
    · simp

theorem lookupRepo_findOrPut_mono {rs : RepositoriesStore} {e : String}
    {d : IAPIRepository} {g : GitHubRepository} (h : lookupRepo rs e d = some g)
    (e2 : String) (d2 : IAPIRepository) :
    lookupRepo (findOrPutGitHubRepository rs e2 d2).2 e d = some g := by
  cases h2 : lookupRepo rs e2 d2 with
  | some g2 => simpa [findOrPutGitHubRepository, h2] using h
  | none =>
    have hfind : rs.repos.find? (fun g2 =>
        g2.endpoint == e && g2.owner.login == d.owner.login && g2.name == d.name) =
        some g := h
    simp only [findOrPutGitHubRepository, h2]
    simp only [lookupRepo]
    rw [List.find?_append, hfind]
    rfl

theorem lookupRepo_insertableLoop_mono (e2 : String) (l : List IAPIPullRequest)
    {rs : RepositoriesStore} {e : String} {d : IAPIRepository} {g : GitHubRepository}
    (h : lookupRepo rs e d = some g) :
    lookupRepo (insertableLoop e2 rs l).2 e d = some g := by
  induction l generalizing rs with
  | nil => simpa [insertableLoop] using h
  | cons pr rest ih =>
    rcases hhr : findOrPutGitHubRepository rs e2 pr.head.repo with ⟨g1, rs1⟩
    rcases hbr : findOrPutGitHubRepository rs1 e2 pr.base.repo with ⟨g2, rs2⟩
    have h1 : lookupRepo rs1 e d = some g := by
      have hx := lookupRepo_findOrPut_mono h e2 pr.head.repo
      rw [hhr] at hx; exact hx
    have h2 : lookupRepo rs2 e d = some g := by
      have hx := lookupRepo_findOrPut_mono h1 e2 pr.base.repo
      rw [hbr] at hx; exact hx
    simp only [insertableLoop, hhr, hbr]
    exact ih h2

theorem insertableLoop_idem (e : String) (l : List IAPIPullRequest) :
    ∀ rs : RepositoriesStore, insertableLoop e (insertableLoop e rs l).2 l =
      insertableLoop e rs l := by
  induction l with
  | nil => intro rs; rfl
  | cons pr rest ih =>
    intro rs
    rcases hhr : findOrPutGitHubRepository rs e pr.head.repo with ⟨g1, rs1⟩
    rcases hbr : findOrPutGitHubRepository rs1 e pr.base.repo with ⟨g2, rs2⟩
    rcases htl : insertableLoop e rs2 rest with ⟨rows, rs3⟩
    have hl1 : lookupRepo rs1 e pr.head.repo = some g1 := by
      have hx := lookupRepo_findOrPut_self rs e pr.head.repo
      rw [hhr] at hx; exact hx
    have hl2 : lookupRepo rs2 e pr.base.repo = some g2 := by
      have hx := lookupRepo_findOrPut_self rs1 e pr.base.repo
      rw [hbr] at hx; exact hx
    have hl1b : lookupRepo rs2 e pr.head.repo = some g1 := by
      have hx := lookupRepo_findOrPut_mono hl1 e pr.base.repo
      rw [hbr] at hx; exact hx
    have hl1c : lookupRepo rs3 e pr.head.repo = some g1 := by
      have hx := lookupRepo_insertableLoop_mono e rest hl1b
      rw [htl] at hx; exact hx
    have hl2c : lookupRepo rs3 e pr.base.repo = some g2 := by
      have hx := lookupRepo_insertableLoop_mono e rest hl2
      rw [htl] at hx; exact hx
    have ihr := ih rs2
    rw [htl] at ihr
    have hfirst : insertableLoop e rs (pr :: rest) =
        ({ number := pr.number, title := pr.title, createdAt := pr.created_at,
           head := { ref := pr.head.ref, sha := pr.head.sha, repoId := g1.dbID.getD 0 },
           base := { ref := pr.base.ref, sha := pr.base.sha, repoId := g2.dbID.getD 0 },
           author := pr.user.login } :: rows, rs3) := by
      simp only [insertableLoop, hhr, hbr, htl]
    rw [hfirst]
    simp only [insertableLoop, findOrPut_of_lookup hl1c, findOrPut_of_lookup hl2c, ihr]

end PullRequestStore

namespace PullRequestStore

/-! ### The logical view (number, title) depends only on the id-independent row
fields -/

theorem map_eraseId_filter (k : Nat) (l : List IPullRequest) :
    (l.filter fun pr => pr.base.repoId == k).map eraseId =
      (l.map eraseId).filter fun d => d.base.repoId == k := by
  induction l with
  | nil => rfl
  | cons pr rest ih =>
    by_cases h : (pr.base.repoId == k) = true
    · rw [@List.filter_cons_of_pos _ (fun pr => pr.base.repoId == k) pr rest h,
        List.map_cons, List.map_cons,
        @List.filter_cons_of_pos _ (fun d => d.base.repoId == k) (eraseId pr)
          (rest.map eraseId) h, ih]
    · rw [@List.filter_cons_of_neg _ (fun pr => pr.base.repoId == k) pr rest h,
        List.map_cons,
        @List.filter_cons_of_neg _ (fun d => d.base.repoId == k) (eraseId pr)
          (rest.map eraseId) h, ih]

theorem map_eraseId_orderedInsert {l₁ l₂ : List IPullRequest} (a b : IPullRequest)
    (hab : eraseId a = eraseId b) (hl : l₁.map eraseId = l₂.map eraseId) :
    (List.orderedInsert numberDesc a l₁).map eraseId =
      (List.orderedInsert numberDesc b l₂).map eraseId := by
  induction l₁ generalizing l₂ with
  | nil =>
    have : l₂ = [] := by
      cases l₂ with
      | nil => rfl
      | cons y ys => simp at hl
    subst this
    simpa using hab
  | cons x xs ih =>
    cases l₂ with
    | nil => simp at hl
    | cons y ys =>
      simp only [List.map_cons, List.cons.injEq] at hl
      obtain ⟨hxy, hmaps⟩ := hl
      have han : a.number = b.number := congrArg IPullRequestData.number hab
      have hxn : x.number = y.number := congrArg IPullRequestData.number hxy
      by_cases hc : numberDesc a x
      · have hc2 : numberDesc b y := by
          unfold numberDesc at hc ⊢
          rw [← hxn, ← han]; exact hc
        rw [List.orderedInsert_of_le _ _ hc, List.orderedInsert_of_le _ _ hc2]
        simp [hab, hxy, hmaps]
      · have hc2 : ¬numberDesc b y := by
          unfold numberDesc at hc ⊢
          rw [← hxn, ← han]; exact hc
        simp only [List.orderedInsert, if_neg hc, if_neg hc2, List.map_cons]
        rw [hxy, ih hmaps]

theorem map_eraseId_insertionSort {l₁ l₂ : List IPullRequest}
    (hl : l₁.map eraseId = l₂.map eraseId) :
    (List.insertionSort numberDesc l₁).map eraseId =
      (List.insertionSort numberDesc l₂).map eraseId := by
  induction l₁ generalizing l₂ with
  | nil =>
    cases l₂ with
    | nil => rfl
    | cons y ys => simp at hl
  | cons x xs ih =>
    cases l₂ with
    | nil => simp at hl
    | cons y ys =>
      simp only [List.map_cons, List.cons.injEq] at hl
      obtain ⟨hxy, hmaps⟩ := hl
      simp only [List.insertionSort]
      exact map_eraseId_orderedInsert x y hxy (ih hmaps)

theorem map_numberTitle_build (db : PullRequestDatabase) (rs : RepositoriesStore)
    (l : List IPullRequest) :
    (l.map (buildPullRequest db rs)).map (fun p => (p.number, p.title)) =
      (l.map eraseId).map fun d => (d.number, d.title) := by
  simp only [List.map_map]
  rfl

/-- The logical content of `currentView`: the (number, title) pairs of the returned
sequence, in order (or the propagated error). -/
def viewNumberTitle (db : PullRequestDatabase) (rs : RepositoriesStore)
    (repository : GitHubRepository) : Except StoreError (List (Nat × String)) :=
  (getPullRequests db rs repository).map fun prs => prs.map fun p => (p.number, p.title)

theorem viewNumberTitle_congr {db₁ db₂ : PullRequestDatabase}
    (rs₁ rs₂ : RepositoriesStore) (repository : GitHubRepository)
    (h : db₁.pullRequests.map eraseId = db₂.pullRequests.map eraseId) :
    viewNumberTitle db₁ rs₁ repository = viewNumberTitle db₂ rs₂ repository := by
  unfold viewNumberTitle getPullRequests
  cases hf : falsyId repository.dbID with
  | true => simp [hf]
  | false =>
    simp only [hf, Bool.false_eq_true, if_false, Except.map]
    have h3 : (db₁.pullRequests.filter fun pr =>
          pr.base.repoId == repository.dbID.getD 0).map eraseId =
        (db₂.pullRequests.filter fun pr =>
          pr.base.repoId == repository.dbID.getD 0).map eraseId := by
      rw [map_eraseId_filter, map_eraseId_filter, h]
    have h5 := map_eraseId_insertionSort h3
    rw [listByRepository, listByRepository, map_numberTitle_build,
      map_numberTitle_build, h5]

end PullRequestStore

namespace PullRequestStore

/-! ### Claim C7 -/

theorem updatePullRequests_table {api : API} {repository : GitHubRepository}
    {l : List IAPIPullRequest} {m : Nat}
    (h1 : api.fetchPullRequests repository.owner.login repository.name = some l)
    (hk : repository.dbID = some (m + 1)) (db : PullRequestDatabase)
    (rs : RepositoriesStore) :
    (updatePullRequests api repository db rs).1.pullRequests =
      assignIds db.nextPrId (insertableLoop repository.endpoint rs l).1 ∧
    (updatePullRequests api repository db rs).2.1 =
      (insertableLoop repository.endpoint rs l).2 := by
  cases hsf : fetchStatusLoop api repository.owner.login repository.name
      ((listByRepository (replacedTable db (insertableLoop repository.endpoint rs l).1)
          (m + 1)).map
        (buildPullRequest (replacedTable db (insertableLoop repository.endpoint rs l).1)
          (insertableLoop repository.endpoint rs l).2)) with
  | none =>
    rw [updatePullRequests_statusFail h1 hk db rs hsf]
    exact ⟨rfl, rfl⟩
  | some sts =>
    rw [updatePullRequests_statusOk h1 hk db rs hsf]
    exact ⟨rfl, rfl⟩

/-- Claim C7: refreshing twice against an unchanged remote result set is idempotent on
the observable cache — the (number, title) sequence of `currentView` after the second
call equals the one after the first call (storage-assigned ids may differ). -/
theorem refresh_idempotent_on_logical_rows {api : API} {repository : GitHubRepository}
    {l : List IAPIPullRequest} {k : Nat}
    (h1 : api.fetchPullRequests repository.owner.login repository.name = some l)
    (hk : repository.dbID = some k) (hk0 : k ≠ 0)
    (db : PullRequestDatabase) (rs : RepositoriesStore) :
    viewNumberTitle (updatePullRequests api repository
        (updatePullRequests api repository db rs).1
        (updatePullRequests api repository db rs).2.1).1
      (updatePullRequests api repository
        (updatePullRequests api repository db rs).1
        (updatePullRequests api repository db rs).2.1).2.1 repository =
    viewNumberTitle (updatePullRequests api repository db rs).1
      (updatePullRequests api repository db rs).2.1 repository := by
  obtain ⟨m, hm⟩ := Nat.exists_eq_succ_of_ne_zero hk0
  subst hm
  have t1 := updatePullRequests_table h1 hk db rs
  have t2 := updatePullRequests_table h1 hk (updatePullRequests api repository db rs).1
    (updatePullRequests api repository db rs).2.1
  apply viewNumberTitle_congr
  rw [t2.1, t1.1, t1.2, insertableLoop_idem repository.endpoint l rs,
    assignIds_map_eraseId, assignIds_map_eraseId]

/-- Witness for C7: two refreshes of `repoA` against the one-pull-request remote give
the same logical view. -/
theorem refresh_idempotent_on_logical_rows_witness :
    viewNumberTitle (updatePullRequests apiA repoA
        (updatePullRequests apiA repoA db0 rsA).1
        (updatePullRequests apiA repoA db0 rsA).2.1).1
      (updatePullRequests apiA repoA
        (updatePullRequests apiA repoA db0 rsA).1
        (updatePullRequests apiA repoA db0 rsA).2.1).2.1 repoA =
    viewNumberTitle (updatePullRequests apiA repoA db0 rsA).1
      (updatePullRequests apiA repoA db0 rsA).2.1 repoA :=
  @refresh_idempotent_on_logical_rows apiA repoA [prA] 1 rfl rfl (by decide) db0 rsA

end PullRequestStore

namespace PullRequestStore

/-! ### Correspondence between remote records, normalized rows, and status rows -/

/-- The id-independent fields a normalized row must share with the remote record it
was built from. -/
def MatchesRemote (pr : IAPIPullRequest) (row : IPullRequestData) : Prop :=
  row.number = pr.number ∧ row.title = pr.title ∧ row.createdAt = pr.created_at ∧
  row.author = pr.user.login ∧ row.head.ref = pr.head.ref ∧ row.head.sha = pr.head.sha ∧
  row.base.ref = pr.base.ref ∧ row.base.sha = pr.base.sha

theorem insertableLoop_matches (e : String) :
    ∀ (l : List IAPIPullRequest) (rs : RepositoriesStore),
      List.Forall₂ MatchesRemote l (insertableLoop e rs l).1 := by
  intro l
  induction l with
  | nil => intro rs; exact List.Forall₂.nil
  | cons pr rest ih =>
    intro rs
    simp only [insertableLoop]
    exact List.Forall₂.cons ⟨rfl, rfl, rfl, rfl, rfl, rfl, rfl, rfl⟩ (ih _)

theorem insertableLoop_base_repoId (e : String) {D : IAPIRepository}
    {g : GitHubRepository} :
    ∀ (l : List IAPIPullRequest) (rs : RepositoriesStore),
      (∀ pr ∈ l, pr.base.repo = D) → lookupRepo rs e D = some g →
      ∀ row ∈ (insertableLoop e rs l).1, row.base.repoId = g.dbID.getD 0 := by
  intro l
  induction l with
  | nil => intro rs _ _ row hrow; simp [insertableLoop] at hrow
  | cons pr rest ih =>
    intro rs hD hg row hrow
    rcases hhr : findOrPutGitHubRepository rs e pr.head.repo with ⟨g1, rs1⟩
    have hg1 : lookupRepo rs1 e D = some g := by
      have hx := lookupRepo_findOrPut_mono hg e pr.head.repo
      rw [hhr] at hx; exact hx
    have hbase : pr.base.repo = D := hD pr (List.mem_cons_self pr rest)
    have hbr : findOrPutGitHubRepository rs1 e pr.base.repo = (g, rs1) := by
      rw [hbase]; exact findOrPut_of_lookup hg1
    simp only [insertableLoop, hhr, hbr] at hrow
    rcases List.mem_cons.mp hrow with rfl | hrow2
    · rfl
    · exact ih rs1 (fun q hq => hD q (List.mem_cons_of_mem _ hq)) hg1 row hrow2

/-- What the status buffered for a pull request during the fetch loop must satisfy. -/
def StatusOf (api : API) (o n : String) (pr : PullRequest) (s : IPullRequestStatus) :
    Prop :=
  s.pullRequestId = pr.id ∧ s.sha = pr.head.sha ∧
    ∃ st, api.fetchCombinedRefStatus o n pr.head.sha = some st ∧
      s.state = st.state ∧ s.totalCount = st.total_count

theorem fetchStatusLoop_matches {api : API} {o n : String} :
    ∀ {prs : List PullRequest} {sts : List IPullRequestStatus},
      fetchStatusLoop api o n prs = some sts →
      List.Forall₂ (StatusOf api o n) prs sts := by
  intro prs
  induction prs with
  | nil =>
    intro sts h
    simp only [fetchStatusLoop] at h
    injection h with h
    subst h
    exact List.Forall₂.nil
  | cons q rest ih =>
    intro sts h
    cases hq : api.fetchCombinedRefStatus o n q.head.sha with
    | none => simp [fetchStatusLoop, hq] at h
    | some st =>
      cases hrest : fetchStatusLoop api o n rest with
      | none => simp [fetchStatusLoop, hq, hrest] at h
      | some tail =>
        simp only [fetchStatusLoop, hq, hrest] at h
        injection h with h
        subst h
        exact List.Forall₂.cons ⟨rfl, rfl, st, hq, rfl, rfl⟩ (ih hrest)

theorem find?_append_skip_old {old sts : List IPullRequestStatus} {x : String}
    {i N : Nat} (hOld : ∀ s ∈ old, s.pullRequestId < N) (hi : N ≤ i) :
    ((old ++ sts).find? fun s => s.sha == x && s.pullRequestId == i) =
      sts.find? fun s => s.sha == x && s.pullRequestId == i := by
  rw [List.find?_append]
  have hnone : (old.find? fun s => s.sha == x && s.pullRequestId == i) = none := by
    rw [List.find?_eq_none]
    intro s hs
    simp only [Bool.and_eq_true, beq_iff_eq]
    intro hcon
    obtain ⟨h1, h2⟩ := hcon
    have := hOld s hs
    omega
  rw [hnone]
  rfl

theorem find?_status_of_forall₂ {api : API} {o n : String}
    {prs : List PullRequest} {sts : List IPullRequestStatus}
    (h : List.Forall₂ (StatusOf api o n) prs sts) :
    ((prs.map fun p => p.id)).Nodup →
      ∀ {p : PullRequest}, p ∈ prs →
        ∃ s, (sts.find? fun s => s.sha == p.head.sha && s.pullRequestId == p.id) =
            some s ∧
          s.sha = p.head.sha ∧
          ∃ st, api.fetchCombinedRefStatus o n p.head.sha = some st ∧
            s.state = st.state ∧ s.totalCount = st.total_count := by
  induction h with
  | nil => intro _ p hp; cases hp
  | @cons a b l₁ l₂ h1 h2 ih =>
    intro hnd p hp
    rw [List.map_cons, List.nodup_cons] at hnd
    rcases List.mem_cons.mp hp with rfl | hp2
    · have hpos : (b.sha == p.head.sha && b.pullRequestId == p.id) = true := by
        simp [h1.1, h1.2.1]
      refine ⟨b, ?_, h1.2.1, h1.2.2⟩
      rw [@List.find?_cons_of_pos _
        (fun s => s.sha == p.head.sha && s.pullRequestId == p.id) b l₂ hpos]
    · have hne : b.pullRequestId ≠ p.id := by
        rw [h1.1]
        intro he
        apply hnd.1
        rw [he]
        exact List.mem_map_of_mem (fun p => p.id) hp2
      have hpred : (b.sha == p.head.sha && b.pullRequestId == p.id) = false := by
        have hb : (b.pullRequestId == p.id) = false := beq_eq_false_iff_ne.mpr hne
        rw [hb, Bool.and_false]
      rw [@List.find?_cons_of_neg _
        (fun s => s.sha == p.head.sha && s.pullRequestId == p.id) b l₂
        (by simp [hpred])]
      exact ih hnd.2 hp2

theorem countP_eq_of_forall₂ {α β : Type} {R : α → β → Prop} {p : α → Bool}
    {q : β → Bool} (hpq : ∀ a b, R a b → p a = q b) :
    ∀ {l₁ : List α} {l₂ : List β}, List.Forall₂ R l₁ l₂ →
      l₁.countP p = l₂.countP q := by
  intro l₁ l₂ h
  induction h with
  | nil => rfl
  | cons h1 h2 ih => simp [List.countP_cons, ih, hpq _ _ h1]

theorem forall₂_exists_left {α β : Type} {R : α → β → Prop} :
    ∀ {l₁ : List α} {l₂ : List β}, List.Forall₂ R l₁ l₂ →
      ∀ {b}, b ∈ l₂ → ∃ a ∈ l₁, R a b := by
  intro l₁ l₂ h
  induction h with
  | nil => intro b hb; cases hb
  | cons h1 h2 ih =>
    intro b hb
    rcases List.mem_cons.mp hb with rfl | hb2
    · exact ⟨_, List.mem_cons_self _ _, h1⟩
    · obtain ⟨a, ha, hr⟩ := ih hb2
      exact ⟨a, List.mem_cons_of_mem _ ha, hr⟩

theorem replacedTable_pullRequests (db : PullRequestDatabase)
    (rows : List IPullRequestData) :
    (replacedTable db rows).pullRequests = assignIds db.nextPrId rows := rfl

theorem writePullRequestStatus_pullRequests (sts : List IPullRequestStatus)
    (db : PullRequestDatabase) :
    (writePullRequestStatus sts db).pullRequests = db.pullRequests := rfl

theorem writePullRequestStatus_statusTable (sts : List IPullRequestStatus)
    (db : PullRequestDatabase) :
    (writePullRequestStatus sts db).pullRequestStatus =
      db.pullRequestStatus ++ sts := rfl

end PullRequestStore

namespace PullRequestStore

/-! ### Claim C8 -/

theorem replacedTable_statusTable (db : PullRequestDatabase)
    (rows : List IPullRequestData) :
    (replacedTable db rows).pullRequestStatus = db.pullRequestStatus := rfl

theorem updatePullRequests_ok_elim {api : API} {repository : GitHubRepository}
    {l : List IAPIPullRequest} {m : Nat} {res : List PullRequest}
    (h1 : api.fetchPullRequests repository.owner.login repository.name = some l)
    (hk : repository.dbID = some (m + 1)) {db : PullRequestDatabase}
    {rs : RepositoriesStore}
    (hres : (updatePullRequests api repository db rs).2.2 = .ok res) :
    ∃ sts, fetchStatusLoop api repository.owner.login repository.name
        ((listByRepository (replacedTable db (insertableLoop repository.endpoint rs l).1)
            (m + 1)).map
          (buildPullRequest (replacedTable db (insertableLoop repository.endpoint rs l).1)
            (insertableLoop repository.endpoint rs l).2)) = some sts ∧
      res = (listByRepository (writePullRequestStatus sts
          (replacedTable db (insertableLoop repository.endpoint rs l).1)) (m + 1)).map
        (buildPullRequest (writePullRequestStatus sts
            (replacedTable db (insertableLoop repository.endpoint rs l).1))
          (insertableLoop repository.endpoint rs l).2) := by
  cases hsf : fetchStatusLoop api repository.owner.login repository.name
      ((listByRepository (replacedTable db (insertableLoop repository.endpoint rs l).1)
          (m + 1)).map
        (buildPullRequest (replacedTable db (insertableLoop repository.endpoint rs l).1)
          (insertableLoop repository.endpoint rs l).2)) with
  | none =>
    rw [updatePullRequests_statusFail h1 hk db rs hsf] at hres
    simp at hres
  | some sts =>
    rw [updatePullRequests_statusOk h1 hk db rs hsf] at hres
    have h2 : Except.ok ((listByRepository (writePullRequestStatus sts
        (replacedTable db (insertableLoop repository.endpoint rs l).1)) (m + 1)).map
      (buildPullRequest (writePullRequestStatus sts
          (replacedTable db (insertableLoop repository.endpoint rs l).1))
        (insertableLoop repository.endpoint rs l).2)) = Except.ok res := hres
    injection h2 with h2
    exact ⟨sts, rfl, h2.symm⟩

theorem refreshedView_each {api : API} {o nm : String} {l : List IAPIPullRequest}
    {rows : List IPullRequestData} {rsW : RepositoriesStore}
    {sts : List IPullRequestStatus} {db : PullRequestDatabase} {m : Nat}
    (hmatches : List.Forall₂ MatchesRemote l rows)
    (hbase : ∀ row ∈ rows, row.base.repoId = m + 1)
    (hnd : (l.map fun pr => pr.number).Nodup)
    (hinv : ∀ s ∈ db.pullRequestStatus, s.pullRequestId < db.nextPrId)
    (hsf : fetchStatusLoop api o nm
        ((listByRepository (replacedTable db rows) (m + 1)).map
          (buildPullRequest (replacedTable db rows) rsW)) = some sts) :
    ∀ pr ∈ l,
      (((listByRepository (writePullRequestStatus sts (replacedTable db rows))
          (m + 1)).map
        (buildPullRequest (writePullRequestStatus sts (replacedTable db rows))
          rsW)).countP fun p => p.number == pr.number) = 1 ∧
      ∀ p ∈ (listByRepository (writePullRequestStatus sts (replacedTable db rows))
          (m + 1)).map
          (buildPullRequest (writePullRequestStatus sts (replacedTable db rows)) rsW),
        p.number = pr.number →
          p.title = pr.title ∧ p.created = pr.created_at ∧ p.author = pr.user.login ∧
          p.head.ref = pr.head.ref ∧ p.head.sha = pr.head.sha ∧
          p.base.ref = pr.base.ref ∧ p.base.sha = pr.base.sha ∧
          ∃ st, api.fetchCombinedRefStatus o nm pr.head.sha = some st ∧
            p.status = some ⟨st.state, st.total_count, pr.head.sha⟩ := by
  have hfil : (assignIds db.nextPrId rows).filter (fun pr => pr.base.repoId == m + 1) =
      assignIds db.nextPrId rows := by
    rw [List.filter_eq_self]
    intro r hr
    have hmem : eraseId r ∈ rows := by
      rw [← assignIds_map_eraseId db.nextPrId rows]
      exact List.mem_map_of_mem eraseId hr
    have hb : r.base.repoId = m + 1 := hbase (eraseId r) hmem
    simp [hb]
  have hperm : (listByRepository (writePullRequestStatus sts (replacedTable db rows))
      (m + 1)).Perm (assignIds db.nextPrId rows) := by
    have hp := listByRepository_perm (writePullRequestStatus sts (replacedTable db rows))
      (m + 1)
    rw [writePullRequestStatus_pullRequests, replacedTable_pullRequests, hfil] at hp
    exact hp
  have hpermW : (listByRepository (replacedTable db rows) (m + 1)).Perm
      (assignIds db.nextPrId rows) := by
    have hp := listByRepository_perm (replacedTable db rows) (m + 1)
    rw [replacedTable_pullRequests, hfil] at hp
    exact hp
  have hforall := fetchStatusLoop_matches hsf
  have hids : (((listByRepository (replacedTable db rows) (m + 1)).map
      (buildPullRequest (replacedTable db rows) rsW)).map fun p => p.id).Nodup := by
    have h1 : (((listByRepository (replacedTable db rows) (m + 1)).map
        (buildPullRequest (replacedTable db rows) rsW)).map fun p => p.id) =
        ((listByRepository (replacedTable db rows) (m + 1)).map fun r => r.id) := by
      rw [List.map_map]
      rfl
    rw [h1]
    exact List.Perm.nodup (List.Perm.map (fun r => r.id) hpermW).symm
      (assignIds_ids_nodup db.nextPrId rows)
  intro pr hpr
  constructor
  · rw [List.countP_map]
    show List.countP (fun r : IPullRequest => r.number == pr.number)
      (listByRepository (writePullRequestStatus sts (replacedTable db rows)) (m + 1)) = 1
    rw [List.Perm.countP_eq _ hperm]
    have h2 : List.countP (fun r : IPullRequest => r.number == pr.number)
        (assignIds db.nextPrId rows) =
        List.countP (fun d : IPullRequestData => d.number == pr.number) rows := by
      conv_rhs => rw [← assignIds_map_eraseId db.nextPrId rows]
      rw [List.countP_map]
      rfl
    rw [h2]
    have h3 : List.countP (fun q : IAPIPullRequest => q.number == pr.number) l =
        List.countP (fun d : IPullRequestData => d.number == pr.number) rows :=
      countP_eq_of_forall₂ (fun a b hab => by rw [hab.1]) hmatches
    rw [← h3]
    have h4 : List.countP (fun q : IAPIPullRequest => q.number == pr.number) l =
        List.count pr.number (l.map fun q => q.number) := by
      rw [List.count_eq_countP, List.countP_map]
      rfl
    rw [h4]
    exact List.count_eq_one_of_mem hnd (List.mem_map_of_mem _ hpr)
  · intro p hpres hnum
    obtain ⟨r, hrsort, rfl⟩ := List.mem_map.mp hpres
    have hrmem : r ∈ assignIds db.nextPrId rows := hperm.mem_iff.mp hrsort
    have hdmem : eraseId r ∈ rows := by
      rw [← assignIds_map_eraseId db.nextPrId rows]
      exact List.mem_map_of_mem eraseId hrmem
    obtain ⟨q, hq, hrel⟩ := forall₂_exists_left hmatches hdmem
    have hqn : q.number = pr.number := by
      rw [← hrel.1]
      exact hnum
    have hqeq : q = pr := List.inj_on_of_nodup_map hnd hq hpr hqn
    subst hqeq
    refine ⟨hrel.2.1, hrel.2.2.1, hrel.2.2.2.1, hrel.2.2.2.2.1, hrel.2.2.2.2.2.1,
      hrel.2.2.2.2.2.2.1, hrel.2.2.2.2.2.2.2, ?_⟩
    have hrsort1 : r ∈ listByRepository (replacedTable db rows) (m + 1) := hrsort
    have hpmem := List.mem_map_of_mem (buildPullRequest (replacedTable db rows) rsW)
      hrsort1
    obtain ⟨s, hfind, hsha, st, hst, hstate, hcount⟩ :=
      find?_status_of_forall₂ hforall hids hpmem
    refine ⟨st, ?_, ?_⟩
    · rw [← hrel.2.2.2.2.2.1]
      exact hst
    · rw [buildPullRequest_status]
      have hle : db.nextPrId ≤ r.id := assignIds_id_lb db.nextPrId rows r hrmem
      have hmain : ((writePullRequestStatus sts
          (replacedTable db rows)).pullRequestStatus.find?
          fun s => s.sha == r.head.sha && s.pullRequestId == r.id) = some s := by
        rw [writePullRequestStatus_statusTable, replacedTable_statusTable]
        rw [find?_append_skip_old hinv hle]
        exact hfind
      simp only [getPullRequestStatusById, hmain]
      have hs2 : s.sha = q.head.sha := by
        rw [← hrel.2.2.2.2.2.1]
        exact hsha
      rw [hstate, hcount, hs2]

/-- Claim C8: every remote pull request of the fetched open set appears exactly once
in the sequence a successful refresh returns, with matching number, title, author,
timestamp, head/base ref and sha, carrying the combined status fetched for its head
sha in step 4 (on the success path a status was retrievable for every head sha, which
satisfies the claim's status-or-absent disjunction). -/
theorem refresh_returns_each_remote_pr {api : API} {repository : GitHubRepository}
    {l : List IAPIPullRequest} {k : Nat} {D : IAPIRepository} {g : GitHubRepository}
    {res : List PullRequest} (db : PullRequestDatabase) (rs : RepositoriesStore)
    (h1 : api.fetchPullRequests repository.owner.login repository.name = some l)
    (hk : repository.dbID = some k) (hk0 : k ≠ 0)
    (hD : ∀ pr ∈ l, pr.base.repo = D)
    (hg : lookupRepo rs repository.endpoint D = some g)
    (hgid : g.dbID = some k)
    (hnd : (l.map fun pr => pr.number).Nodup)
    (hinv : ∀ s ∈ db.pullRequestStatus, s.pullRequestId < db.nextPrId)
    (hres : (updatePullRequests api repository db rs).2.2 = .ok res) :
    ∀ pr ∈ l,
      (res.countP fun p => p.number == pr.number) = 1 ∧
      ∀ p ∈ res, p.number = pr.number →
        p.title = pr.title ∧ p.created = pr.created_at ∧ p.author = pr.user.login ∧
        p.head.ref = pr.head.ref ∧ p.head.sha = pr.head.sha ∧
        p.base.ref = pr.base.ref ∧ p.base.sha = pr.base.sha ∧
        ∃ st, api.fetchCombinedRefStatus repository.owner.login repository.name
            pr.head.sha = some st ∧
          p.status = some ⟨st.state, st.total_count, pr.head.sha⟩ := by
  obtain ⟨m, hm⟩ := Nat.exists_eq_succ_of_ne_zero hk0
  subst hm
  obtain ⟨sts, hsf, hresEq⟩ := updatePullRequests_ok_elim h1 hk hres
  subst hresEq
  have hbase : ∀ row ∈ (insertableLoop repository.endpoint rs l).1,
      row.base.repoId = m + 1 := by
    intro row hrow
    have hb := insertableLoop_base_repoId repository.endpoint l rs hD hg row hrow
    rw [hgid] at hb
    exact hb
  exact refreshedView_each (insertableLoop_matches repository.endpoint l rs) hbase hnd
    hinv hsf

end PullRequestStore

namespace PullRequestStore

/-- The sequence returned by the successful one-pull-request refresh below. -/
def resC8 : List PullRequest :=
  [⟨0, "2020-02-02", some ⟨"success", 2, "sha5"⟩, "t5", 5,
    ⟨"h", "sha5", some ⟨some 2, "e", ⟨"bob"⟩, "alpha"⟩⟩,
    ⟨"m", "shab", some repoA⟩, "u"⟩]

/-- Witness for C8: the refresh of `repoA` returns exactly one pull request matching
remote record `prA`, carrying the fetched success status. -/
theorem refresh_returns_each_remote_pr_witness :
    (updatePullRequests apiA repoA db0 rsA).2.2 = .ok resC8 ∧
    (resC8.countP fun p => p.number == prA.number) = 1 :=
  ⟨rfl, (@refresh_returns_each_remote_pr apiA repoA [prA] 1 descA repoA resC8 db0 rsA
    rfl rfl (by decide) (by decide) (by decide) rfl (by decide) (by decide) rfl prA
    (by decide)).1⟩

end PullRequestStore
